import Mathlib

/-!
Shallow embedding of the LaserProcessing adaptive segmentation engine
(`src/data_base/segmentation_1.py` and `src/data_base/mass_segmentation.py`).

Pixel matrices are `List (List Nat)` (row-major, 8-bit grayscale values),
contour points are pairs of integers `(x, y)`, threshold levels are rationals
(they come from `np.percentile`, a float).  Library calls that are external to
the repository (cv2 contour extraction, cv2 filled-contour mean intensity,
image decoding) are passed in as explicit parameters; everything the
repository itself computes is translated directly from the Python source.
Float arithmetic of the source is modelled by exact rational arithmetic, with
`Real.sqrt` for the square root inside `np.std`.
-/

namespace LaserProcessing

/-- Segmentation polarity: `type_ == dark` or anything else (bright). -/
inductive Mode where
  | dark : Mode
  | bright : Mode
deriving DecidableEq

/-- The calibration constant 0.53836990 micrometers per pixel used throughout
`segmentation_1.py`. -/
def calibQ : ℚ := 53836990 / 100000000

/-- The calibration constant as a real number (for the `np.std` branch). -/
noncomputable def calibR : ℝ := (calibQ : ℝ)

/-! ### Binary mask builder (`segmentation_1.py` lines 42-47)

`cv2.threshold(gray, level, 255, THRESH_BINARY_INV)` maps a pixel `v` to
`0` when `v > level` and to `255` otherwise; `THRESH_BINARY` maps `v` to
`255` when `v > level` and to `0` otherwise.  The level is a float
(percentile), the pixels are 8-bit integers. -/

/-- Per-pixel thresholding exactly as cv2 performs it for the two branches
of `Segmentation.segmentation`. -/
def maskPix (mode : Mode) (lvl : ℚ) (v : ℕ) : ℕ :=
  match mode with
  | Mode.dark => if lvl < (v : ℚ) then 0 else 255
  | Mode.bright => if lvl < (v : ℚ) then 255 else 0

/-- The binary mask produced from the grayscale matrix (spec name
`build_mask`; inline in `Segmentation.segmentation`). -/
def build_mask (g : List (List ℕ)) (lvl : ℚ) (mode : Mode) : List (List ℕ) :=
  g.map (List.map (maskPix mode lvl))

/-! ### Column-scan stripe width (`other_segment`, `segmentation_1.py` lines 50-67)

The Python code transposes the mask and iterates the rows of the transpose
(= columns of the mask).  `width_count` is initialised once, OUTSIDE the
column loop, so its value carries over from one column into the next. -/

/-- Column `i` of a matrix, as a row of the numpy transpose (matrices produced by
cv2 are rectangular, so the `getD` default is never used on them). -/
def colAt (m : List (List ℕ)) (i : ℕ) : List ℕ :=
  m.map (fun row => row.getD i 0)

/-- numpy transpose of a rectangular matrix, as the list of its columns. -/
def transposeM (m : List (List ℕ)) : List (List ℕ) :=
  (List.range (m.headD []).length).map (colAt m)

/-- One column of the scan in `other_segment`: the inner `for j` loop plus
the trailing `width_iter.append(width_count)` and `max(width_iter)`.
The counter enters with the value `c0` left over from the previous column
(this is exactly what the Python does: `width_count` is not reset between
columns) and the final counter value is returned alongside the maximum of
the column. -/
def colScan (c0 : ℕ) (col : List ℕ) : ℕ × ℕ :=
  let p := col.foldl
    (fun (st : List ℕ × ℕ) v =>
      if v ≠ 0 then (st.1, st.2 + 1)
      else if st.2 ≠ 0 then (st.1 ++ [st.2], 0) else (st.1, 0))
    ([], c0)
  ((p.1 ++ [p.2]).foldl max 0, p.2)

/-- The `width_result` list of `other_segment`: one value per column,
threading `width_count` across columns exactly as the source does. -/
def otherSegmentVals (thresh : List (List ℕ)) : List ℕ :=
  ((transposeM thresh).foldl
    (fun (st : List ℕ × ℕ) col =>
      let r := colScan st.2 col
      (st.1 ++ [r.1], r.2))
    ([], 0)).1

/-- `other_segment`: mean of the per-column values times the calibration. -/
def other_segment (thresh : List (List ℕ)) : ℚ :=
  let vals := otherSegmentVals thresh
  (vals.sum : ℚ) / (vals.length : ℚ) * calibQ

/-- The longest contiguous run of foreground (nonzero) pixels within one
column alone, counter reset at every background pixel.  This is the
description the specification gives of the column scan (spec section 4.6 step 2),
stated independently so it can be compared with `otherSegmentVals`. -/
def longestRun (col : List ℕ) : ℕ :=
  (col.foldl
    (fun (st : ℕ × ℕ) v =>
      if v ≠ 0 then (max st.1 (st.2 + 1), st.2 + 1) else (st.1, 0))
    (0, 0)).1

/-! ### Percentile brightness (`calculate_percentile_brightness`, lines 227-239) -/

/-- Insertion step for sorting pixel values. -/
def insertNat (v : ℕ) : List ℕ → List ℕ
  | [] => [v]
  | w :: ws => if v ≤ w then v :: w :: ws else w :: insertNat v ws

/-- Insertion sort of pixel values (numpy sorts the flattened array before
interpolating). -/
def sortNat (l : List ℕ) : List ℕ := l.foldr insertNat []

/-- `np.percentile` with the default linear interpolation on the flattened,
sorted data, for `q` in `[0, 100]` (numpy raises outside that range; the
repository only calls it inside the range). -/
def npPercentile (pixels : List ℕ) (q : ℚ) : ℚ :=
  let s := sortNat pixels
  let n := s.length
  if n = 0 then 0
  else
    let pos : ℚ := q / 100 * ((n : ℚ) - 1)
    let i : ℕ := (⌊pos⌋).toNat
    let a : ℚ := ((s.getD i 0 : ℕ) : ℚ)
    let b : ℚ := ((s.getD (min (i + 1) (n - 1)) 0 : ℕ) : ℚ)
    a + (pos - (i : ℚ)) * (b - a)

/-- `Segmentation.calculate_percentile_brightness`: for any non-dark mode the
percentage is replaced by `abs(100 - percentage)` before the percentile is
taken. -/
def calculate_percentile_brightness (pixels : List (List ℕ)) (procentage : ℚ)
    (mode : Mode) : ℚ :=
  let p := if mode = Mode.dark then procentage else abs (100 - procentage)
  npPercentile pixels.flatten p

/-! ### Crop (`Segmentation.crop_center_square`, lines 241-257)

The PIL call `img.crop((left, top, right, bottom))` keeps columns `[left, right)`
and rows `[top, bottom)`. -/

/-- The crop box computed by `crop_center_square` from the image size. -/
structure Box where
  left : ℕ
  top : ℕ
  right : ℕ
  bottom : ℕ
deriving DecidableEq

/-- The box `(width // 2, (height - size) // 2, width, (height + size) // 2)`
with `size = height // 2`. -/
def crop_box (w h : ℕ) : Box :=
  { left := w / 2
    top := (h - h / 2) / 2
    right := w
    bottom := (h + h / 2) / 2 }

/-- `Segmentation.crop_center_square` applied to a pixel matrix. -/
def crop_center_square (img : List (List ℕ)) : List (List ℕ) :=
  let b := crop_box (img.headD []).length img.length
  ((img.drop b.top).take (b.bottom - b.top)).map
    (fun r => (r.drop b.left).take (b.right - b.left))

/-! ### Contour-grouping stripe statistics (`other_segment_3`, lines 115-164)

A contour is the cv2 point list of shape `(N, 1, 2)`, modelled as a list of
`(x, y)` integer pairs.  The function sorts the points by `x`
(`np.argsort` on column 0; the order within one `x`-group is irrelevant
because only the maximal pairwise `y`-distance of a group is used), then
walks the sorted list flushing, for each completed group, the maximal pairwise
`y`-distance into `result_list`.  A single-point group flushes
the float minus-infinity, modelled as `none`.  The filter keeps values `> 60`; the
mean is `sum/len` and the deviation is `np.std` (population), both times the
calibration; an empty filtered list raises `ZeroDivisionError`, caught by
the bare `except` which returns `(0, 0)` - as does a `None` contour. -/

/-- A contour point `(x, y)`. -/
abbrev Point := ℤ × ℤ

/-- A cv2 contour: the ordered list of its boundary points. -/
abbrev Contour := List Point

/-- All pairwise absolute differences `abs (l[j] - l[k])`, `j < k`, exactly
the double loop `for i, elem_1 in enumerate(sup_list, 1): for elem_2 in
sup_list[i:]`. -/
def pairGaps : List ℤ → List ℤ
  | [] => []
  | y :: ys => ys.map (fun z => abs (y - z)) ++ pairGaps ys

/-- The running maximum starting from the float minus-infinity: `none` when the group
has fewer than two points, otherwise the largest pairwise gap. -/
def maxPairGap (l : List ℤ) : Option ℤ := (pairGaps l).max?

/-- One iteration of the grouping loop in `other_segment_3`: state is
`(prev_elem, sup_list, result_list)`. -/
def gstep (st : Point × List Point × List (Option ℤ)) (e : Point) :
    Point × List Point × List (Option ℤ) :=
  if e.1 = st.1.1 then (e, st.2.1 ++ [e], st.2.2)
  else (e, [e], st.2.2 ++ [maxPairGap (st.2.1.map Prod.snd)])

/-- The `result_list` produced by the grouping loop of `other_segment_3` on
an (already sorted) point list: `prev_elem` starts at the first point,
`sup_list` and `result_list` start empty, and the loop runs over all points.
The group in flight when the loop ends is never flushed. -/
def groupRuns (pts : List Point) : List (Option ℤ) :=
  match pts with
  | [] => []
  | p :: _ => (pts.foldl gstep (p, ([], []))).2.2

/-- The filter `lambda elem: elem > 60` (`-inf > 60` is false in Python). -/
def keepRun : Option ℤ → Option ℤ
  | none => none
  | some n => if 60 < n then some n else none

/-- The filtered `result_list` of `other_segment_3`, with the `-inf`
placeholders gone (they never pass the `> 60` filter). -/
def filteredRuns (pts : List Point) : List ℤ :=
  (groupRuns pts).filterMap keepRun

/-- Insertion step for sorting contour points by their `x`-coordinate. -/
def insertByX (p : Point) : List Point → List Point
  | [] => [p]
  | q :: qs => if p.1 ≤ q.1 then p :: q :: qs else q :: insertByX p qs

/-- Sort by `x`-coordinate (`np.argsort` on column 0; any order inside an
equal-`x` group yields the same `result_list`, see `maxPairGap`). -/
def sortByX (pts : List Point) : List Point := pts.foldr insertByX []

/-- `sum(result_list)/len(result_list)` as exact rational arithmetic. -/
def listMeanQ (l : List ℤ) : ℚ := ((l.sum : ℤ) : ℚ) / (l.length : ℚ)

/-- The population variance `np.std` squares: mean of squared deviations. -/
def popVarQ (l : List ℤ) : ℚ :=
  ((l.map (fun x => ((x : ℚ) - listMeanQ l) ^ 2)).sum) / (l.length : ℚ)

/-- `np.std` (population standard deviation, `ddof = 0`). -/
noncomputable def npStd (l : List ℤ) : ℝ := Real.sqrt ((popVarQ l : ℝ))

/-- `other_segment_3`: `none` models the `None` contour (its `reshape`
raises, caught by the outer bare `except`).  The division by a zero length
raises `ZeroDivisionError`, caught by the inner bare `except`; both paths
return `(0, 0)`. -/
noncomputable def other_segment_3 (arr : Option (List Point)) : ℚ × ℝ :=
  match arr with
  | none => (0, 0)
  | some pts =>
    let l := filteredRuns (sortByX pts)
    if l.length = 0 then (0, 0)
    else (listMeanQ l * calibQ, npStd l * calibR)

/-! ### Region selection (`darkest_object_func` / `brightest_object_func`,
lines 80-112)

The mean grayscale intensity inside a filled contour is computed by cv2
(`drawContours` + `cv2.mean`); it is external to the repository and is
passed in as `meanI`.  cv2 returns a mean in `[0, 255]`. -/

/-- `darkest_object_func`: fold with `darkest_object = None`,
`min_avg_intensity = 256`, keeping a contour whenever its mean intensity is
strictly below the running minimum. -/
def darkest_object_func (meanI : Contour → ℚ) (contours : List Contour) :
    Option Contour :=
  (contours.foldl
    (fun st c => if meanI c < st.2 then (some c, meanI c) else st)
    ((none : Option Contour), (256 : ℚ))).1

/-- `brightest_object_func`: starts from `-1` and keeps a contour whenever
its mean intensity is strictly above the running maximum. -/
def brightest_object_func (meanI : Contour → ℚ) (contours : List Contour) :
    Option Contour :=
  (contours.foldl
    (fun st c => if st.2 < meanI c then (some c, meanI c) else st)
    ((none : Option Contour), (-1 : ℚ))).1

/-- The mode dispatch of `Segmentation.segmentation` (lines 107-112). -/
def select_region (mode : Mode) (meanI : Contour → ℚ)
    (contours : List Contour) : Option Contour :=
  match mode with
  | Mode.dark => darkest_object_func meanI contours
  | Mode.bright => brightest_object_func meanI contours

/-! ### Measurement and the return value of `Segmentation.segmentation`
(lines 176-225) -/

/-- Largest `y` among the contour points (`bottommost[1]`); cv2 contours are
nonempty, the `0` default is unreachable on them. -/
def maxYv : Contour → ℤ
  | [] => 0
  | p :: ps => ps.foldl (fun a q => max a q.2) p.2

/-- Smallest `y` among the contour points (`topmost[1]`). -/
def minYv : Contour → ℤ
  | [] => 0
  | p :: ps => ps.foldl (fun a q => min a q.2) p.2

/-- The numpy round-half-to-even on a rational, to an integer. -/
def roundHalfEvenZ (x : ℚ) : ℤ :=
  let f := ⌊x⌋
  let r := x - (f : ℚ)
  if r < 1 / 2 then f
  else if 1 / 2 < r then f + 1
  else if f % 2 = 0 then f else f + 1

/-- `np.round(x, 5)`. -/
def npRound5 (x : ℚ) : ℚ := ((roundHalfEvenZ (x * 100000) : ℤ) : ℚ) / 100000

/-- The slot of the returned 4-tuple that carries the annotated image on
success: the Python returns the literal int `0` there when no object was
found, and a PIL image (here tagged by the drawn contour) otherwise. -/
inductive BlobSlot where
  | zeroInt : BlobSlot
  | annotated : Contour → BlobSlot
deriving DecidableEq

/-- The value `Segmentation.segmentation` hands back to its caller, from the
contour list onward (image decoding, cv2 contour extraction and the filled
mean intensity `meanI` are external library calls).  When the selector finds
no object the function prints and returns `(0, 0, 0, 0)`; otherwise it
returns `(width, image_pil, avg_width[0], avg_width[1])` with
`width = np.round(0.53836990 * (bottommost[1] - topmost[1]), 5)`. -/
noncomputable def segmentation (meanI : Contour → ℚ)
    (contours : List Contour) (mode : Mode) : ℚ × BlobSlot × ℚ × ℝ :=
  match select_region mode meanI contours with
  | none => (0, BlobSlot.zeroInt, 0, 0)
  | some cnt =>
    let aw := other_segment_3 (some cnt)
    (npRound5 (calibQ * ((maxYv cnt - minYv cnt : ℤ) : ℚ)),
      BlobSlot.annotated cnt, aw.1, aw.2)

/-! ### Adaptive threshold driver (`mass_segmentation.py` lines 22-51)

The per-image body of `segmentation_for_folder`.  One full pipeline
invocation (crop, percentile at the current `black_level`, segmentation) is
abstracted as an oracle `seg : ℤ → Mode → ℚ × α` from the level and mode to
the pair of the returned width and the rest of the returned data (annotated
image, average stripe width, standard deviation).  The Python `while` loops
have no bound; `fuel` makes the recursion structural, and `none` marks fuel
exhaustion (a run that the unbounded Python loop would not have finished
within that many iterations). -/

/-- One of the two retry loops: `while width > 30: prev <- cur;
black_level -= step; cur <- seg(black_level)`; on exit the PREVIOUS result
is kept (the caller records `prev_width`, `prev_img_to_save`, ...). -/
def segLoop {α : Type} (seg : ℤ → ℚ × α) (step : ℤ) :
    ℕ → ℤ → ℚ × α → ℚ × α → Option (ℚ × α)
  | 0, _, _, _ => none
  | fuel + 1, lvl, prev, cur =>
    if 30 < cur.1 then segLoop seg step fuel (lvl - step) cur (seg (lvl - step))
    else some prev

/-- The per-image body of `segmentation_for_folder`: probe at level 50 in
dark mode; if the width exceeds 30 retry in dark mode decrementing by 1,
otherwise probe in bright mode at level 50 (with `prev` still holding the
initial dark result) and retry in bright mode decrementing by 2.  The value
returned is the one the driver records for the image. -/
def processImage {α : Type} (seg : ℤ → Mode → ℚ × α) (fuel : ℕ) :
    Option (ℚ × α) :=
  let r0 := seg 50 Mode.dark
  if 30 < r0.1 then
    segLoop (fun l => seg l Mode.dark) 1 fuel 50 r0 r0
  else
    segLoop (fun l => seg l Mode.bright) 2 fuel 50 r0 (seg 50 Mode.bright)

/-! ## Theorems -/

/-- C4: the claim says every collected value is the longest run WITHIN its
own column, the counter being reset at each background pixel so that no run
spans two columns.  In the source, `width_count` is initialised once outside
the column loop, so a run ending at the bottom of one column is carried into
the next.  On the 2x2 mask whose first column is all foreground and whose
second column is all background, the code collects `[2, 2]`: the second
column reports `2` although it contains no foreground pixel at all, whereas
the in-column longest runs are `[2, 0]`. -/
theorem C4_column_carry_bug :
    otherSegmentVals [[255, 0], [255, 0]] = [2, 2]
    ∧ (transposeM [[255, 0], [255, 0]]).map longestRun = [2, 0]
    ∧ otherSegmentVals [[255, 0], [255, 0]]
        ≠ (transposeM [[255, 0], [255, 0]]).map longestRun := by
  refine ⟨by decide, by decide, by decide⟩

/-- C5 counterexample: on a 4-wide, 2-high image `crop_center_square`
returns a 1x2 matrix - the full right half horizontally - which is not a
square of side `height / 2 = 1`.  The claim that the result is square with
side `height / 2` is false. -/
theorem C5_not_square_cex :
    crop_center_square [[0, 1, 2, 3], [4, 5, 6, 7]] = [[2, 3]]
    ∧ (crop_center_square [[0, 1, 2, 3], [4, 5, 6, 7]]).length = 1
    ∧ ((crop_center_square [[0, 1, 2, 3], [4, 5, 6, 7]]).headD []).length = 2
    ∧ (2 : ℕ) ≠ 1 := by
  refine ⟨by decide, by decide, by decide, by decide⟩

/-- C5 amended: `crop_center_square` keeps the full right half of the image
horizontally (`width - width / 2` columns, from column `width / 2` on) and a
vertically centered band of exactly `height / 2` rows; it is square only
when those two quantities coincide. -/
theorem C5_right_half_band (img : List (List ℕ)) (w h : ℕ)
    (hh : img.length = h) (hw : ∀ r ∈ img, r.length = w) (hpos : 0 < h) :
    (crop_center_square img).length = h / 2
    ∧ ∀ r ∈ crop_center_square img, r.length = w - w / 2 := by
  cases img with
  | nil => simp at hh; omega
  | cons a l =>
    have ha : a.length = w := hw a (List.mem_cons_self a l)
    have hlen : (a :: l).length = h := hh
    constructor
    · simp only [crop_center_square, crop_box, List.headD_cons, ha,
        List.length_map, List.length_take, List.length_drop, hlen]
      omega
    · intro r hr
      simp only [crop_center_square, crop_box, List.headD_cons, ha,
        List.mem_map] at hr
      obtain ⟨r0, hr0, rfl⟩ := hr
      have hmem : r0 ∈ a :: l :=
        List.mem_of_mem_drop (List.mem_of_mem_take hr0)
      have hr0w : r0.length = w := hw r0 hmem
      simp only [List.length_take, List.length_drop, hr0w]
      omega

/-- C5 witness: on a 4x4 image the crop is the 2x2 block of rows 1-2 and
columns 2-3. -/
theorem C5_right_half_band_witness :
    (crop_center_square [[0, 1, 2, 3], [4, 5, 6, 7], [8, 9, 10, 11],
        [12, 13, 14, 15]]).length = 4 / 2
    ∧ ∀ r ∈ crop_center_square [[0, 1, 2, 3], [4, 5, 6, 7], [8, 9, 10, 11],
        [12, 13, 14, 15]], r.length = 4 - 4 / 2 :=
  C5_right_half_band _ 4 4 (by decide) (by decide) (by decide)

/-- C7: computing the percentile brightness in bright mode at `p` gives
exactly the value of dark mode at `100 - p`, for `p` in `[0, 100]`: the
bright branch replaces the percentage by `abs (100 - p) = 100 - p` and the
dark branch uses its argument unchanged, so both call `np.percentile` with
the same effective percentage on the same pixel distribution. -/
theorem C7_percentile_symmetry (pixels : List (List ℕ)) (p : ℚ)
    (h0 : 0 ≤ p) (h1 : p ≤ 100) :
    calculate_percentile_brightness pixels p Mode.bright
      = calculate_percentile_brightness pixels (100 - p) Mode.dark := by
  unfold calculate_percentile_brightness
  have habs : |(100 : ℚ) - p| = 100 - p := abs_of_nonneg (by linarith)
  simp [habs]

/-- C7 witness at `p = 30` on a concrete two-pixel distribution. -/
theorem C7_percentile_symmetry_witness :
    calculate_percentile_brightness [[0, 10]] 30 Mode.bright
      = calculate_percentile_brightness [[0, 10]] (100 - 30) Mode.dark :=
  C7_percentile_symmetry [[0, 10]] 30 (by norm_num) (by norm_num)

/-- C8: in the mask built for dark mode a pixel is foreground (nonzero, the
cv2 `THRESH_BINARY_INV` value 255) exactly when its intensity is at most the
level, in bright mode (`THRESH_BINARY`) exactly when its intensity strictly
exceeds the level; the two masks are pointwise complementary, and a pixel
whose intensity equals the level is foreground in dark mode and background
in bright mode. -/
theorem C8_mask_polarity (g : List (List ℕ)) (lvl : ℚ) (i j v : ℕ)
    (hi : i < g.length) (hj : j < (g.getD i []).length)
    (hv : (g.getD i []).getD j 0 = v) :
    (((build_mask g lvl Mode.dark).getD i []).getD j 0 ≠ 0 ↔ (v : ℚ) ≤ lvl)
    ∧ (((build_mask g lvl Mode.bright).getD i []).getD j 0 ≠ 0 ↔ lvl < (v : ℚ))
    ∧ (((build_mask g lvl Mode.dark).getD i []).getD j 0 ≠ 0
        ↔ ((build_mask g lvl Mode.bright).getD i []).getD j 0 = 0)
    ∧ ((v : ℚ) = lvl →
        ((build_mask g lvl Mode.dark).getD i []).getD j 0 = 255
        ∧ ((build_mask g lvl Mode.bright).getD i []).getD j 0 = 0) := by
  have hgi : g.getD i [] = g[i] := List.getD_eq_getElem g [] hi
  have hj2 : j < g[i].length := by rw [← hgi]; exact hj
  have hv2 : g[i][j] = v := by
    rw [← List.getD_eq_getElem g[i] 0 hj2, ← hgi]; exact hv
  have key : ∀ m : Mode,
      ((build_mask g lvl m).getD i []).getD j 0 = maskPix m lvl v := by
    intro m
    have hlen : i < (build_mask g lvl m).length := by
      simpa [build_mask] using hi
    rw [List.getD_eq_getElem _ [] hlen]
    have hrow : (build_mask g lvl m)[i] = g[i].map (maskPix m lvl) := by
      simp [build_mask]
    rw [hrow]
    have hj3 : j < (g[i].map (maskPix m lvl)).length := by simpa using hj2
    rw [List.getD_eq_getElem _ 0 hj3, List.getElem_map, hv2]
  simp only [key, maskPix]
  rcases lt_or_ge lvl (v : ℚ) with hcl | hcl
  · have h1 : ¬((v : ℚ) ≤ lvl) := not_le.mpr hcl
    have h2 : ¬((v : ℚ) = lvl) := by
      intro h; rw [h] at hcl; exact lt_irrefl _ hcl
    simp [hcl, h1, h2]
  · have h2 : ¬(lvl < (v : ℚ)) := not_lt.mpr hcl
    simp [hcl, h2]

/-- C8 witness at a pixel whose intensity equals the level. -/
theorem C8_mask_polarity_witness :
    ((((build_mask [[5]] 5 Mode.dark).getD 0 []).getD 0 0 ≠ 0 ↔
        ((5 : ℕ) : ℚ) ≤ 5)
      ∧ (((build_mask [[5]] 5 Mode.bright).getD 0 []).getD 0 0 ≠ 0 ↔
        (5 : ℚ) < ((5 : ℕ) : ℚ))
      ∧ (((build_mask [[5]] 5 Mode.dark).getD 0 []).getD 0 0 ≠ 0
        ↔ ((build_mask [[5]] 5 Mode.bright).getD 0 []).getD 0 0 = 0)
      ∧ (((5 : ℕ) : ℚ) = 5 →
        ((build_mask [[5]] 5 Mode.dark).getD 0 []).getD 0 0 = 255
        ∧ ((build_mask [[5]] 5 Mode.bright).getD 0 []).getD 0 0 = 0)) :=
  C8_mask_polarity [[5]] 5 0 0 5 (by decide) (by decide) (by decide)

/-! ### The retry loop of the adaptive driver -/

/-- Behaviour of one retry loop of `segmentation_for_folder`: if the widths
at levels `lvl, lvl - step, ..., lvl - step*(n-1)` all exceed 30 and the
width at `lvl - step*n` does not, the loop stops there and keeps the result
of the PREVIOUS level `lvl - step*(n-1)` - the last one still above the
bound - discarding the first in-bound result. -/
theorem segLoop_keep {α : Type} (seg : ℤ → ℚ × α) (step : ℤ) :
    ∀ (n fuel : ℕ) (lvl : ℤ) (prev : ℚ × α),
      1 ≤ n → n < fuel →
      (∀ k : ℕ, k < n → 30 < (seg (lvl - step * (k : ℤ))).1) →
      (seg (lvl - step * (n : ℤ))).1 ≤ 30 →
      segLoop seg step fuel lvl prev (seg lvl)
        = some (seg (lvl - step * ((n : ℤ) - 1))) := by
  intro n
  induction n with
  | zero => intro fuel lvl prev h1; omega
  | succ m ih =>
    intro fuel lvl prev _ h2 habove hdone
    obtain ⟨f, rfl⟩ : ∃ f, fuel = f + 1 := ⟨fuel - 1, by omega⟩
    have hc : 30 < (seg lvl).1 := by
      have h := habove 0 (by omega)
      simpa using h
    simp only [segLoop, if_pos hc]
    by_cases hm : m = 0
    · subst hm
      obtain ⟨f2, rfl⟩ : ∃ f2, f = f2 + 1 := ⟨f - 1, by omega⟩
      have hd : ¬ 30 < (seg (lvl - step)).1 := by
        apply not_lt.mpr
        have h := hdone
        have e : lvl - step * ((1 : ℕ) : ℤ) = lvl - step := by push_cast; ring
        rwa [e] at h
      simp only [segLoop, if_neg hd]
      have e : lvl - step * (((1 : ℕ) : ℤ) - 1) = lvl := by push_cast; ring
      rw [e]
    · have habove2 : ∀ k : ℕ, k < m →
          30 < (seg (lvl - step - step * (k : ℤ))).1 := by
        intro k hk
        have h := habove (k + 1) (by omega)
        have e : lvl - step * ((k + 1 : ℕ) : ℤ) = lvl - step - step * (k : ℤ) := by
          push_cast; ring
        rwa [e] at h
      have hdone2 : (seg (lvl - step - step * (m : ℤ))).1 ≤ 30 := by
        have h := hdone
        have e : lvl - step * ((m + 1 : ℕ) : ℤ) = lvl - step - step * (m : ℤ) := by
          push_cast; ring
        rwa [e] at h
      have hres := ih f (lvl - step) (seg lvl) (by omega) (by omega) habove2 hdone2
      rw [hres]
      have e : lvl - step - step * ((m : ℤ) - 1)
          = lvl - step * (((m + 1 : ℕ) : ℤ) - 1) := by push_cast; ring
      rw [e]

/-- C1 counterexample oracle: the initial dark probe at level 50 measures
width 40, every other probe measures 20. -/
def segC1w : ℤ → Mode → ℚ × ℕ := fun l _ =>
  if l = 50 then (40, 0) else (20, 1)

/-- C1 counterexample: with the dark probe sequence 40 (level 50), 20
(level 49), the driver records the width-40 result produced at level 50 -
the result of the previous iteration, whose width VIOLATES the 30-px bound - so
the result the driver keeps is not "the last in-bound result" and does not
"satisfy the width bound" as the claim states: the in-bound width-20 result
is computed and discarded. -/
theorem C1_in_bound_kept_cex :
    processImage segC1w 2 = some (40, 0) ∧ ¬ ((40 : ℚ) ≤ 30) := by
  refine ⟨by decide, by norm_num⟩

/-- C1 amended: in dark mode, when the probes at levels `50, 49, ...,
50-(n-1)` all exceed 30 px and the probe at `50-n` does not, the driver
keeps the result of the previous iteration - the result of level `50-(n-1)` -
which is the LAST result whose width still exceeded the bound; the first
in-bound result is computed but discarded. -/
theorem C1_keeps_previous_above_bound {α : Type} (seg : ℤ → Mode → ℚ × α)
    (n fuel : ℕ) (h1 : 1 ≤ n) (h2 : n < fuel)
    (habove : ∀ k : ℕ, k < n → 30 < (seg (50 - (k : ℤ)) Mode.dark).1)
    (hdone : (seg (50 - (n : ℤ)) Mode.dark).1 ≤ 30) :
    processImage seg fuel = some (seg (50 - ((n : ℤ) - 1)) Mode.dark)
    ∧ 30 < (seg (50 - ((n : ℤ) - 1)) Mode.dark).1 := by
  have h0 : 30 < (seg 50 Mode.dark).1 := by
    have h := habove 0 h1
    simpa using h
  constructor
  · simp only [processImage, if_pos h0]
    have hres := segLoop_keep (fun l => seg l Mode.dark) 1 n fuel 50
      (seg 50 Mode.dark) h1 h2
      (fun k hk => by
        have h := habove k hk
        have e : (50 : ℤ) - (k : ℤ) = 50 - 1 * (k : ℤ) := by ring
        rwa [e] at h)
      (by
        have h := hdone
        have e : (50 : ℤ) - (n : ℤ) = 50 - 1 * (n : ℤ) := by ring
        rwa [e] at h)
    have e : (50 : ℤ) - 1 * ((n : ℤ) - 1) = 50 - ((n : ℤ) - 1) := by ring
    rw [e] at hres
    exact hres
  · have h := habove (n - 1) (by omega)
    have e : (50 : ℤ) - ((n - 1 : ℕ) : ℤ) = 50 - ((n : ℤ) - 1) := by
      have : ((n - 1 : ℕ) : ℤ) = (n : ℤ) - 1 := by omega
      rw [this]
    rwa [e] at h

/-- C1 witness: the amended statement applied to the 40-then-20 oracle. -/
theorem C1_keeps_previous_above_bound_witness :
    processImage segC1w 2 = some (segC1w (50 - (((1 : ℕ) : ℤ) - 1)) Mode.dark)
    ∧ 30 < (segC1w (50 - (((1 : ℕ) : ℤ) - 1)) Mode.dark).1 :=
  C1_keeps_previous_above_bound segC1w 1 2 (by norm_num) (by norm_num)
    (fun k hk => by
      have hk0 : k = 0 := by omega
      subst hk0; decide)
    (by decide)

/-- C2 counterexample oracle: dark probes measure 20, the bright probe at
level 50 measures 40, every other bright probe measures 10.  The payload
component tags which probe produced the result. -/
def segC2w : ℤ → Mode → ℚ × ℕ := fun l m =>
  match m with
  | Mode.dark => (20, 0)
  | Mode.bright => if l = 50 then (40, 1) else (10, 2)

/-- C2 counterexample: the initial dark probe at level 50 yields width
20 <= 30, yet the driver does NOT return that initial result: it switches to
bright mode, and because the bright probe at level 50 measures 40 > 30 it
records the bright-mode result `(40, 1)` instead of the initial `(20, 0)`. -/
theorem C2_initial_result_cex :
    (segC2w 50 Mode.dark).1 ≤ 30
    ∧ processImage segC2w 3 = some (40, 1)
    ∧ some ((40 : ℚ), (1 : ℕ)) ≠ some ((20 : ℚ), (0 : ℕ)) := by
  refine ⟨by norm_num [segC2w], by decide, by decide⟩

/-- C2 amended: when the initial dark probe at level 50 yields width at
most 30, the driver nevertheless switches to bright mode and probes at
level 50; if the bright widths at levels `50, 48, ..., 50-2(n-1)` all
exceed 30 and the one at `50-2n` does not, the recorded result is the
bright-mode result of level `50-2(n-1)` (still above the bound), not the
initial dark result. -/
theorem C2_bright_switch {α : Type} (seg : ℤ → Mode → ℚ × α)
    (n fuel : ℕ) (hdark : (seg 50 Mode.dark).1 ≤ 30)
    (h1 : 1 ≤ n) (h2 : n < fuel)
    (habove : ∀ k : ℕ, k < n → 30 < (seg (50 - 2 * (k : ℤ)) Mode.bright).1)
    (hdone : (seg (50 - 2 * (n : ℤ)) Mode.bright).1 ≤ 30) :
    processImage seg fuel = some (seg (50 - 2 * ((n : ℤ) - 1)) Mode.bright)
    ∧ 30 < (seg (50 - 2 * ((n : ℤ) - 1)) Mode.bright).1 := by
  constructor
  · simp only [processImage, if_neg (not_lt.mpr hdark)]
    exact segLoop_keep (fun l => seg l Mode.bright) 2 n fuel 50
      (seg 50 Mode.dark) h1 h2 habove hdone
  · have h := habove (n - 1) (by omega)
    have e : (50 : ℤ) - 2 * ((n - 1 : ℕ) : ℤ) = 50 - 2 * ((n : ℤ) - 1) := by
      have : ((n - 1 : ℕ) : ℤ) = (n : ℤ) - 1 := by omega
      rw [this]
    rwa [e] at h

/-- C2 witness: the amended statement applied to the oracle of the
counterexample, with one bright retry. -/
theorem C2_bright_switch_witness :
    processImage segC2w 3
      = some (segC2w (50 - 2 * (((1 : ℕ) : ℤ) - 1)) Mode.bright)
    ∧ 30 < (segC2w (50 - 2 * (((1 : ℕ) : ℤ) - 1)) Mode.bright).1 :=
  C2_bright_switch segC2w 1 3 (by decide) (by norm_num) (by norm_num)
    (fun k hk => by
      have hk0 : k = 0 := by omega
      subst hk0; decide)
    (by decide)

/-- C10 oracle: dark probes measure width 20, bright probes width 10; the
payload tags the mode that produced the measurement. -/
def segC10w : ℤ → Mode → ℚ × ℕ := fun _ m =>
  match m with
  | Mode.dark => (20, 0)
  | Mode.bright => (10, 1)

/-- C10: when the initial dark probe at level 50 is in bound and the first
bright probe is in bound as well, the bright loop body never runs, so the
`prev_*` variables - set to the initial dark result before the mode switch -
are what the driver records: the bright measurement is discarded. -/
theorem C10_bright_probe_discarded {α : Type} (seg : ℤ → Mode → ℚ × α)
    (fuel : ℕ) (hf : 1 ≤ fuel)
    (hdark : (seg 50 Mode.dark).1 ≤ 30)
    (hbright : (seg 50 Mode.bright).1 ≤ 30) :
    processImage seg fuel = some (seg 50 Mode.dark) := by
  obtain ⟨f, rfl⟩ : ∃ f, fuel = f + 1 := ⟨fuel - 1, by omega⟩
  simp only [processImage, if_neg (not_lt.mpr hdark)]
  simp only [segLoop, if_neg (not_lt.mpr hbright)]

/-- C10 witness: dark width 20, bright width 10; the recorded result is the
dark one. -/
theorem C10_bright_probe_discarded_witness :
    processImage segC10w 1 = some (segC10w 50 Mode.dark) :=
  C10_bright_probe_discarded segC10w 1 (by norm_num) (by decide) (by decide)

/-! ### Lemmas about the grouping loop of `other_segment_3` -/

/-- `gstep` always stores the current point as the new `prev_elem`. -/
theorem gstep_fst (st : Point × List Point × List (Option ℤ)) (e : Point) :
    (gstep st e).1 = e := by
  unfold gstep; split <;> rfl

/-- `gstep` on a point of the current group extends `sup_list`. -/
theorem gstep_extend (st : Point × List Point × List (Option ℤ)) (e : Point)
    (h : e.1 = st.1.1) : gstep st e = (e, st.2.1 ++ [e], st.2.2) := by
  unfold gstep; rw [if_pos h]

/-- `gstep` on a point of a new group flushes the maximal
pairwise gap. -/
theorem gstep_flush (st : Point × List Point × List (Option ℤ)) (e : Point)
    (h : ¬ (e.1 = st.1.1)) :
    gstep st e = (e, [e], st.2.2 ++ [maxPairGap (st.2.1.map Prod.snd)]) := by
  unfold gstep; rw [if_neg h]

/-- After the grouping loop, `prev_elem` is the initial one or one of the
processed points. -/
theorem gloop_fst_mem :
    ∀ (l : List Point) (st : Point × List Point × List (Option ℤ)),
      (l.foldl gstep st).1 = st.1 ∨ (l.foldl gstep st).1 ∈ l := by
  intro l
  induction l with
  | nil => intro st; exact Or.inl rfl
  | cons e es ih =>
    intro st
    simp only [List.foldl_cons]
    rcases ih (gstep st e) with h | h
    · exact Or.inr (by rw [h, gstep_fst]; exact List.mem_cons_self e es)
    · exact Or.inr (List.mem_cons_of_mem e h)

/-- While every incoming point shares the `x`-coordinate of `prev_elem`,
the loop only grows `sup_list` and never appends to `result_list`. -/
theorem gloop_acc_const (m : ℤ) :
    ∀ (l : List Point) (st : Point × List Point × List (Option ℤ)),
      (∀ p ∈ l, p.1 = m) → st.1.1 = m →
      (l.foldl gstep st).2.2 = st.2.2 := by
  intro l
  induction l with
  | nil => intro st _ _; rfl
  | cons e es ih =>
    intro st hall hst
    have he : e.1 = m := hall e (List.mem_cons_self e es)
    simp only [List.foldl_cons]
    rw [gstep_extend st e (by rw [he, hst])]
    exact ih _ (fun p hp => hall p (List.mem_cons_of_mem e hp)) he

/-- A point list all of whose points share one `x`-coordinate produces an
empty `result_list`: no group is ever flushed. -/
theorem groupRuns_const_x (l : List Point) (m : ℤ)
    (h : ∀ p ∈ l, p.1 = m) : groupRuns l = [] := by
  cases l with
  | nil => rfl
  | cons p rest =>
    have hp : p.1 = m := h p (List.mem_cons_self p rest)
    show ((p :: rest).foldl gstep (p, ([], []))).2.2 = []
    simp only [List.foldl_cons]
    rw [gstep_extend (p, ([], [])) p rfl]
    exact gloop_acc_const m rest _
      (fun q hq => h q (List.mem_cons_of_mem p hq)) hp

/-- Elements of `insertByX q l` are `q` or elements of `l`. -/
theorem mem_insertByX (p q : Point) :
    ∀ (l : List Point), p ∈ insertByX q l → p = q ∨ p ∈ l := by
  intro l
  induction l with
  | nil =>
    intro h
    simp only [insertByX, List.mem_singleton] at h
    exact Or.inl h
  | cons w ws ih =>
    intro h
    simp only [insertByX] at h
    by_cases hc : q.1 ≤ w.1
    · rw [if_pos hc] at h
      rcases List.mem_cons.mp h with h1 | h1
      · exact Or.inl h1
      · exact Or.inr h1
    · rw [if_neg hc] at h
      rcases List.mem_cons.mp h with h1 | h1
      · exact Or.inr (h1 ▸ List.mem_cons_self w ws)
      · rcases ih h1 with h2 | h2
        · exact Or.inl h2
        · exact Or.inr (List.mem_cons_of_mem w h2)

/-- Sorting by `x` introduces no new points. -/
theorem mem_sortByX (p : Point) :
    ∀ (l : List Point), p ∈ sortByX l → p ∈ l := by
  intro l
  induction l with
  | nil => intro h; simp [sortByX] at h
  | cons w ws ih =>
    intro h
    have he : sortByX (w :: ws) = insertByX w (sortByX ws) := rfl
    rw [he] at h
    rcases mem_insertByX p w (sortByX ws) h with h1 | h1
    · exact h1 ▸ List.mem_cons_self w ws
    · exact List.mem_cons_of_mem w (ih h1)

/-- C6: the stripe-width statistics keep only collected run values strictly
greater than 60; when nothing survives the filter (including a `-inf`
placeholder from a single-point group) the function returns `(0, 0)`
instead of raising, and otherwise it returns the mean and the population
standard deviation of the surviving values, each multiplied by the
calibration constant. -/
theorem C6_stripe_stats_filter (pts : List Point) :
    (∀ v ∈ filteredRuns (sortByX pts), 60 < v)
    ∧ (filteredRuns (sortByX pts) = [] →
        other_segment_3 (some pts) = (0, 0))
    ∧ (filteredRuns (sortByX pts) ≠ [] →
        other_segment_3 (some pts)
          = (listMeanQ (filteredRuns (sortByX pts)) * calibQ,
             npStd (filteredRuns (sortByX pts)) * calibR)) := by
  refine ⟨?_, ?_, ?_⟩
  · intro v hv
    simp only [filteredRuns, List.mem_filterMap] at hv
    obtain ⟨o, _, ho⟩ := hv
    cases o with
    | none => simp [keepRun] at ho
    | some n =>
      simp only [keepRun] at ho
      by_cases h : 60 < n
      · rw [if_pos h] at ho
        cases ho
        exact h
      · rw [if_neg h] at ho
        cases ho
  · intro h
    simp only [other_segment_3, h]
    simp
  · intro h
    simp only [other_segment_3]
    rw [if_neg (by simpa [List.length_eq_zero] using h)]

/-- C6 witness: a contour whose single flushed group has gap 10 (at most
60) filters to nothing and yields `(0, 0)`. -/
theorem C6_stripe_stats_filter_witness :
    other_segment_3 (some [((0 : ℤ), (0 : ℤ)), (0, 10), (1, 0)]) = (0, 0) :=
  (C6_stripe_stats_filter [((0 : ℤ), (0 : ℤ)), (0, 10), (1, 0)]).2.1
    (by decide)

/-- C9: the group of points with the largest `x`-coordinate is never
flushed into `result_list` - replacing that whole group by any single point
with the same `x` leaves `result_list` unchanged - and a contour whose
points all share one `x`-coordinate therefore yields `(0, 0)`. -/
theorem C9_last_group_excluded :
    (∀ (m : ℤ) (q : Point) (ps qs : List Point),
        qs ≠ [] → (∀ p ∈ qs, p.1 = m) → (∀ p ∈ ps, p.1 < m) → q.1 = m →
        groupRuns (ps ++ qs) = groupRuns (ps ++ [q]))
    ∧ (∀ (pts : List Point) (m : ℤ), (∀ p ∈ pts, p.1 = m) →
        other_segment_3 (some pts) = (0, 0)) := by
  constructor
  · intro m q ps qs hqs hq hps hqm
    cases ps with
    | nil =>
      simp only [List.nil_append]
      rw [groupRuns_const_x qs m hq, groupRuns_const_x [q] m
        (by intro p hp; rw [List.mem_singleton.mp hp]; exact hqm)]
    | cons p0 ps2 =>
      have key : ∀ (l : List Point), l ≠ [] → (∀ p ∈ l, p.1 = m) →
          groupRuns ((p0 :: ps2) ++ l)
            = ((p0 :: ps2).foldl gstep (p0, ([], []))).2.2
              ++ [maxPairGap
                ((((p0 :: ps2).foldl gstep (p0, ([], []))).2.1).map
                  Prod.snd)] := by
        intro l hl hlm
        cases l with
        | nil => exact absurd rfl hl
        | cons q1 l2 =>
          show ((((p0 :: ps2) ++ (q1 :: l2)).foldl gstep
            (p0, ([], [])))).2.2 = _
          rw [List.foldl_append]
          set st := (p0 :: ps2).foldl gstep (p0, ([], [])) with hst
          have hmem : st.1 ∈ p0 :: ps2 := by
            rcases gloop_fst_mem (p0 :: ps2) (p0, ([], [])) with h | h
            · rw [hst, h]; exact List.mem_cons_self p0 ps2
            · rw [hst]; exact h
          have hlt : st.1.1 < m := hps _ hmem
          have hq1 : q1.1 = m := hlm q1 (List.mem_cons_self q1 l2)
          have hne : ¬ (q1.1 = st.1.1) := by
            rw [hq1]; exact (ne_of_gt hlt)
          rw [List.foldl_cons, gstep_flush st q1 hne]
          exact gloop_acc_const m l2 _
            (fun p hp => hlm p (List.mem_cons_of_mem q1 hp)) hq1
      rw [key qs hqs hq, key [q] (by simp)
        (by intro p hp; rw [List.mem_singleton.mp hp]; exact hqm)]
  · intro pts m hall
    have hg : groupRuns (sortByX pts) = [] :=
      groupRuns_const_x _ m (fun p hp => hall p (mem_sortByX p pts hp))
    simp only [other_segment_3, filteredRuns, hg]
    simp

/-- C9 witness: the largest-`x` group `[(3,2), (3,50)]` can be replaced by
the single point `(3,7)` without changing `result_list`, and an
all-same-`x` contour yields `(0, 0)`. -/
theorem C9_last_group_excluded_witness :
    groupRuns ([((0 : ℤ), (1 : ℤ)), (0, 9)] ++ [(3, 2), (3, 50)])
      = groupRuns ([((0 : ℤ), (1 : ℤ)), (0, 9)] ++ [(3, 7)])
    ∧ other_segment_3 (some [((5 : ℤ), (0 : ℤ)), (5, 100)]) = (0, 0) :=
  ⟨C9_last_group_excluded.1 3 (3, 7) [(0, 1), (0, 9)] [(3, 2), (3, 50)]
      (by decide) (by decide) (by decide) (by decide),
    C9_last_group_excluded.2 [(5, 0), (5, 100)] 5 (by decide)⟩

/-! ### Lemmas about region selection -/

/-- Once the darkest-object fold holds a candidate it never drops it. -/
theorem darkest_foldl_some (meanI : Contour → ℚ) :
    ∀ (l : List Contour) (st : Option Contour × ℚ), st.1.isSome = true →
      ((l.foldl
        (fun st c => if meanI c < st.2 then (some c, meanI c) else st)
        st).1).isSome = true := by
  intro l
  induction l with
  | nil => intro st h; exact h
  | cons c cs ih =>
    intro st h
    simp only [List.foldl_cons]
    by_cases hc : meanI c < st.2
    · exact ih _ (by rw [if_pos hc]; rfl)
    · exact ih _ (by rw [if_neg hc]; exact h)

/-- Once the brightest-object fold holds a candidate it never drops it. -/
theorem brightest_foldl_some (meanI : Contour → ℚ) :
    ∀ (l : List Contour) (st : Option Contour × ℚ), st.1.isSome = true →
      ((l.foldl
        (fun st c => if st.2 < meanI c then (some c, meanI c) else st)
        st).1).isSome = true := by
  intro l
  induction l with
  | nil => intro st h; exact h
  | cons c cs ih =>
    intro st h
    simp only [List.foldl_cons]
    by_cases hc : st.2 < meanI c
    · exact ih _ (by rw [if_pos hc]; rfl)
    · exact ih _ (by rw [if_neg hc]; exact h)

/-- With cv2 mean intensities (always in `[0, 255]`, hence below the 256
sentinel and above the -1 sentinel), the selector finds an object whenever
at least one contour exists, in either mode. -/
theorem select_region_isSome (mode : Mode) (meanI : Contour → ℚ)
    (cs : List Contour) (hb : ∀ c ∈ cs, 0 ≤ meanI c ∧ meanI c ≤ 255)
    (hne : cs ≠ []) : (select_region mode meanI cs).isSome = true := by
  cases cs with
  | nil => exact absurd rfl hne
  | cons c rest =>
    cases mode with
    | dark =>
      show ((darkest_object_func meanI (c :: rest))).isSome = true
      unfold darkest_object_func
      simp only [List.foldl_cons]
      have hc : meanI c < (256 : ℚ) :=
        lt_of_le_of_lt (hb c (List.mem_cons_self c rest)).2 (by norm_num)
      exact darkest_foldl_some meanI rest _ (by rw [if_pos hc]; rfl)
    | bright =>
      show ((brightest_object_func meanI (c :: rest))).isSome = true
      unfold brightest_object_func
      simp only [List.foldl_cons]
      have hc : (-1 : ℚ) < meanI c :=
        lt_of_lt_of_le (by norm_num) (hb c (List.mem_cons_self c rest)).1
      exact brightest_foldl_some meanI rest _ (by rw [if_pos hc]; rfl)

/-- C3: on an empty contour set (e.g. an all-white image thresholded in
dark mode, where the inverse mask has no foreground and cv2 finds no
contour) the segmentation returns the fixed tuple `(0, 0, 0, 0)` whose
image slot holds the integer 0 - and on EVERY nonempty contour set the
image slot holds an annotated image, never that integer: the not-found
return is a value no successful measurement can produce, so the caller can
recognise the failure explicitly. -/
theorem C3_not_found_explicit (meanI : Contour → ℚ) (mode : Mode)
    (hb : ∀ c, 0 ≤ meanI c ∧ meanI c ≤ 255) :
    segmentation meanI [] mode = (0, BlobSlot.zeroInt, 0, 0)
    ∧ ∀ cs : List Contour, cs ≠ [] →
        (segmentation meanI cs mode).2.1 ≠ BlobSlot.zeroInt := by
  constructor
  · have h : select_region mode meanI [] = none := by
      cases mode <;> rfl
    simp only [segmentation, h]
  · intro cs hne
    have h := select_region_isSome mode meanI cs (fun c _ => hb c) hne
    obtain ⟨cnt, hcnt⟩ := Option.isSome_iff_exists.mp h
    simp only [segmentation, hcnt]
    simp

/-- C3 witness: a constant mean intensity of 100, dark mode, and a
one-point contour. -/
theorem C3_not_found_explicit_witness :
    segmentation (fun _ => 100) [] Mode.dark = (0, BlobSlot.zeroInt, 0, 0)
    ∧ (segmentation (fun _ => 100) [[((0 : ℤ), (0 : ℤ))]] Mode.dark).2.1
        ≠ BlobSlot.zeroInt := by
  have h := C3_not_found_explicit (fun _ => (100 : ℚ)) Mode.dark
    (fun c => ⟨by norm_num, by norm_num⟩)
  exact ⟨h.1, h.2 [[((0 : ℤ), (0 : ℤ))]] (by simp)⟩

end LaserProcessing
